import Mathlib

/-!
Verification of the heap-routing tier of `gfx-memory`
(`src/gfx-memory/src/heaps/mod.rs`): the `Heaps` registry, its
`allocate` / `allocate_from` / `free` / `clear` operations, the
`HeapsError` taxonomy and the per-heap budget bookkeeping.

Machine integers (`Size = u64`, masks and indices as `u32`) are modelled
as `Nat`; the one place where fixed-width behaviour matters — the
`1u32 << index` shift in the mask filter, which overflows (a debug-build
panic) once a class index reaches 32 — is modelled explicitly, and every
Rust panic path (`Vec` indexing out of bounds, the shift overflow) is
modelled as `Option.none`.

The source slice contains only `heaps/mod.rs`.  The heap tracker
(`heap.rs`), the memory-type wrapper with its sub-allocation strategies
(`memory_type.rs`) and the usage policy (`usage.rs`) are external to the
slice and are modelled from the specification's component contracts
(spec §4.1, §4.2, §6): the heap tracker is `(total size, used bytes)`
with `available = size - used`; the strategy and the usage policy are
opaque parameters.
-/

namespace GfxMemory

/-- Out-of-memory failure of the native device API (`hal::device::OutOfMemory`). -/
inductive OutOfMemory where
  | Host
  | Device
deriving DecidableEq

/-- Allocation failure of the native device API (`hal::device::AllocationError`).
The `From` impls in `heaps/mod.rs` wrap both this and bare `OutOfMemory`
into `HeapsError::AllocationError`. -/
inductive AllocationError where
  | OutOfMemory (e : OutOfMemory)
  | TooManyObjects
deriving DecidableEq

/-- Possible errors returned by `Heaps` (`HeapsError` in `heaps/mod.rs`). -/
inductive HeapsError where
  | AllocationError (e : AllocationError)
  | NoSuitableMemory (mask : Nat) (properties : Nat)
deriving DecidableEq

/-- Modelled from the spec: the usage policy contract (spec §6), `usage.rs`
being outside the source slice.  A usage exposes the required property
flags and a totally ordered fitness score over candidate property flags.
Property flag sets are `Nat` bitmasks; `a` contains `b` iff `a &&& b = b`,
mirroring `hal::memory::Properties::contains`. -/
structure MemoryUsage where
  properties_required : Nat
  memory_fitness : Nat → Nat

/-- Modelled from the spec: the heap budget tracker (spec §3, §4.1),
`heap.rs` being outside the source slice.  It records a fixed total
`size` and the mutable `used` byte count, charged and reclaimed by the
router's allocate and free paths. -/
structure MemoryHeap where
  size : Nat
  used : Nat
deriving DecidableEq

/-- Remaining budget: `total_size - used_size` (spec §4.1). -/
def MemoryHeap.available (h : MemoryHeap) : Nat :=
  h.size - h.used

/-- Charge the tracker with `amount` bytes (the strategy-reported
allocated amount at the `memory_heap.allocated(..)` call site). -/
def MemoryHeap.allocated (h : MemoryHeap) (amount : Nat) : MemoryHeap :=
  ⟨h.size, h.used + amount⟩

/-- Reclaim `amount` bytes (the strategy-reported freed amount at the
`memory_heap.freed(..)` call site). -/
def MemoryHeap.freed (h : MemoryHeap) (amount : Nat) : MemoryHeap :=
  ⟨h.size, h.used - amount⟩

/-- Memory-type wrapper state visible to the router: the index of the
backing heap and the capability property flags.  The wrapper's owned
sub-allocation strategy (`memory_type.rs`, outside the slice) is
modelled as the opaque `AllocStrategy` / `FreeStrategy` parameters. -/
structure MemoryType where
  heap_index : Nat
  properties : Nat
deriving DecidableEq

/-- Opaque block flavor (`BlockFlavor`): the strategy-produced record,
of which the router uses `size()` and the block forwards `properties()`. -/
structure BlockFlavor where
  size : Nat
  properties : Nat
deriving DecidableEq

/-- Memory block allocated from `Heaps` (`MemoryBlock` in `heaps/mod.rs`). -/
structure MemoryBlock where
  flavor : BlockFlavor
  memory_index : Nat
deriving DecidableEq

/-- Block property flags: forwarded to the flavor (the `Block` impl for
`MemoryBlock` dispatches `properties()` to the wrapped strategy block). -/
def MemoryBlock.properties (b : MemoryBlock) : Nat :=
  b.flavor.properties

/-- Get memory type id (`MemoryBlock::memory_type`). -/
def MemoryBlock.memory_type (b : MemoryBlock) : Nat :=
  b.memory_index

/-- Modelled from the spec: the sub-allocation strategy contract
(spec §6) for `MemoryType::alloc`, `memory_type.rs` being outside the
source slice.  Given the class index, the usage, the size and the
alignment it either fails with a device allocation error or returns the
produced flavor together with the charged byte count. -/
def AllocStrategy : Type :=
  Nat → MemoryUsage → Nat → Nat → Except AllocationError (BlockFlavor × Nat)

/-- Modelled from the spec: the strategy contract (spec §6) for
`MemoryType::free`: given the class index and the flavor it returns the
reclaimed byte count; it cannot fail. -/
def FreeStrategy : Type :=
  Nat → BlockFlavor → Nat

/-- Heaps available on a particular physical device (`Heaps` in
`heaps/mod.rs`): the ordered collection of memory types and of heap
trackers. -/
structure Heaps where
  types : List MemoryType
  heaps : List MemoryHeap
deriving DecidableEq

/-- Constructor `Heaps::new`: one tracker per heap size with zero used
bytes, one memory type per `(properties, heap_index)` pair; the
`assert!(heap_index < heaps.len())` is modelled as the `none` case. -/
def Heaps.new (types : List (Nat × Nat)) (heapSizes : List Nat) : Option Heaps :=
  let heaps := heapSizes.map fun s => MemoryHeap.mk s 0
  if types.all fun p => decide (p.2 < heaps.length) then
    some ⟨types.map fun p => ⟨p.2, p.1⟩, heaps⟩
  else
    none

/-- The `suitable_types` iterator of `Heaps::allocate`: enumerate the
types, keep those whose index bit is set in `mask`, then keep those
whose properties contain `usage.properties_required()`, pairing each
with its fitness score. -/
def Heaps.suitableTypes (H : Heaps) (mask : Nat) (usage : MemoryUsage) :
    List (Nat × MemoryType × Nat) :=
  (H.types.enum.filter fun p => mask &&& (1 <<< p.1) != 0).filterMap fun p =>
    if p.2.properties &&& usage.properties_required = usage.properties_required then
      some (p.1, p.2, usage.memory_fitness p.2.properties)
    else
      none

/-- The first-phase capacity filter of `Heaps::allocate`:
`self.heaps[mt.heap_index()].available() > size + align`. -/
def Heaps.capacityEligible (H : Heaps) (size align : Nat)
    (p : Nat × MemoryType × Nat) : Bool :=
  size + align < (H.heaps.getD p.2.1.heap_index ⟨0, 0⟩).available

/-- Rust's `Iterator::max_by_key`: the maximal element by `key`, the
LAST one when several are equally maximal. -/
def maxByKey {α : Type} (key : α → Nat) : List α → Option α
  | [] => none
  | x :: xs => some (xs.foldl (fun acc y => if key acc ≤ key y then y else acc) x)

/-- Private helper `Heaps::allocate_from`: re-check the budget
(`available() < size` fails with `OutOfMemory::Device`), delegate to the
class's strategy, and on success charge the tracker with the
strategy-reported amount and wrap flavor and class index into a block.
`none` models the panic on an out-of-range index; otherwise the
(possibly updated) registry is returned next to the result, the error
paths leaving it untouched. -/
def Heaps.allocate_from (alloc : AllocStrategy) (H : Heaps) (memory_index : Nat)
    (usage : MemoryUsage) (size align : Nat) :
    Option (Heaps × Except HeapsError MemoryBlock) :=
  match H.types[memory_index]? with
  | none => none
  | some mt =>
    match H.heaps[mt.heap_index]? with
    | none => none
    | some mh =>
      if mh.available < size then
        some (H, .error (.AllocationError (.OutOfMemory .Device)))
      else
        match alloc memory_index usage size align with
        | .error e => some (H, .error (.AllocationError e))
        | .ok (flavor, allocated) =>
          some (⟨H.types, H.heaps.set mt.heap_index (mh.allocated allocated)⟩,
            .ok ⟨flavor, memory_index⟩)

/-- `Heaps::allocate`: filter by mask and required properties; if no
type survives, fail with `NoSuitableMemory(mask, properties_required)`;
otherwise filter by the first-phase capacity check, take the type of
maximal fitness (`max_by_key`, last on ties), failing with the capacity
error when none survives, and delegate to `allocate_from`.  `none`
models the debug-build panics: the `1u32 << index` overflow forced as
soon as the registry holds more than 32 types (every non-panicking path
evaluates the shift at each index), and an out-of-range `heap_index`
met by the capacity filter. -/
def Heaps.allocate (alloc : AllocStrategy) (H : Heaps) (mask : Nat)
    (usage : MemoryUsage) (size align : Nat) :
    Option (Heaps × Except HeapsError MemoryBlock) :=
  if 32 < H.types.length then
    none
  else
    if (H.suitableTypes mask usage).isEmpty then
      some (H, .error (.NoSuitableMemory mask usage.properties_required))
    else
      if (H.suitableTypes mask usage).all fun p => decide (p.2.1.heap_index < H.heaps.length) then
        match maxByKey (fun p => p.2.2)
            ((H.suitableTypes mask usage).filter (H.capacityEligible size align)) with
        | none => some (H, .error (.AllocationError (.OutOfMemory .Device)))
        | some p => H.allocate_from alloc p.1 usage size align
      else
        none

/-- `Heaps::free`: look the class up by the block's stored index,
delegate `free(flavor)` to its strategy, and reclaim the strategy-reported
amount from the backing tracker.  It returns no error; `none` models the
indexing panic on a foreign block. -/
def Heaps.free (freeFn : FreeStrategy) (H : Heaps) (block : MemoryBlock) :
    Option Heaps :=
  match H.types[block.memory_index]? with
  | none => none
  | some mt =>
    match H.heaps[mt.heap_index]? with
    | none => none
    | some mh =>
      some ⟨H.types, H.heaps.set mt.heap_index (mh.freed (freeFn block.memory_index block.flavor))⟩

/-- `Heaps::clear`: drain the type collection (each drained class
releases its native resources, a strategy-side effect outside this
state), leaving it empty. -/
def Heaps.clear (H : Heaps) : Heaps :=
  ⟨[], H.heaps⟩

/-- The `Drop` impl for `Heaps`: it emits the loud
`log::error!("Heaps still have .. types live on drop")` diagnostic
exactly when the type collection is non-empty. -/
def Heaps.dropDiagnostic (H : Heaps) : Bool :=
  !H.types.isEmpty

/-- Heap index backing class `i`: `self.types[i].heap_index()` (lookup
with a default, used only at indices separately known to be in range). -/
def heapIndexOf (H : Heaps) (i : Nat) : Nat :=
  (H.types.getD i ⟨0, 0⟩).heap_index

/-- Charged bytes the strategy reports for class `i` on the given call
shape (`0` when the strategy fails, in which case nothing is charged). -/
def allocCharge (alloc : AllocStrategy) (usage : MemoryUsage) (size align i : Nat) : Nat :=
  match alloc i usage size align with
  | .ok (_, a) => a
  | .error _ => 0

/-! ### Concrete fixtures, used by the witness theorems -/

/-- Fixture: one class (property bit 0) backed by one 1024-byte heap. -/
def exH : Heaps := ⟨[⟨0, 1⟩], [⟨1024, 0⟩]⟩

/-- Fixture: two identical classes backed by the same 1024-byte heap. -/
def exH2 : Heaps := ⟨[⟨0, 1⟩, ⟨0, 1⟩], [⟨1024, 0⟩]⟩

/-- Fixture: a 33-class registry, enough to overflow the `u32` shift. -/
def exH33 : Heaps := ⟨List.replicate 33 ⟨0, 1⟩, [⟨1024, 0⟩]⟩

/-- Fixture: one class backed by a small 100-byte heap. -/
def exHsmall : Heaps := ⟨[⟨0, 1⟩], [⟨100, 0⟩]⟩

/-- Fixture usage requiring property bit 0, scoring a class by its
property word. -/
def exUsage : MemoryUsage := ⟨1, fun p => p⟩

/-- Fixture usage requiring property bit 0 with a constant fitness
score, forcing ties. -/
def exUsageC : MemoryUsage := ⟨1, fun _ => 5⟩

/-- Fixture strategy: always succeeds, flavor of the requested size
carrying property bit 0, charged amount = requested size. -/
def exAlloc : AllocStrategy := fun _ _ size _ => .ok (⟨size, 1⟩, size)

/-- Fixture free strategy: reclaims the flavor's size. -/
def exFree : FreeStrategy := fun _ f => f.size

/-! ### Budget-conservation trace model -/

/-- Sum of the charged bytes of the live blocks backed by heap `j`. -/
def chargedSum (types : List MemoryType) (j : Nat) : List (MemoryBlock × Nat) → Nat
  | [] => 0
  | p :: rest =>
    (if (types.getD p.1.memory_index ⟨0, 0⟩).heap_index = j then p.2 else 0) +
      chargedSum types j rest

/-- State of the budget-conservation trace: the registry together with
the currently-live blocks, each paired with the bytes its allocation
charged. -/
structure SysState where
  H : Heaps
  live : List (MemoryBlock × Nat)

/-- One successful allocate or free call on the router, as claim C1
quantifies.  The side conditions on the opaque strategy are the spec's
strategy contract (§4.2, §6), the strategy code being outside the
slice: a successful allocation's charge fits within the backing heap's
remaining budget, and free reports exactly the bytes the freed block's
allocation charged. -/
inductive SysStep (alloc : AllocStrategy) (freeFn : FreeStrategy) :
    SysState → SysState → Prop where
  | allocStep (S : SysState) (mask : Nat) (usage : MemoryUsage) (size align : Nat)
      (H' : Heaps) (b : MemoryBlock)
      (hok : S.H.allocate alloc mask usage size align = some (H', .ok b))
      (hbudget : allocCharge alloc usage size align b.memory_index ≤
        (S.H.heaps.getD (heapIndexOf S.H b.memory_index) ⟨0, 0⟩).available) :
      SysStep alloc freeFn S
        ⟨H', (b, allocCharge alloc usage size align b.memory_index) :: S.live⟩
  | freeStep (S : SysState) (b : MemoryBlock) (c : Nat)
      (l1 l2 : List (MemoryBlock × Nat)) (H' : Heaps)
      (hlive : S.live = l1 ++ (b, c) :: l2)
      (hfree : S.H.free freeFn b = some H')
      (hcontract : freeFn b.memory_index b.flavor = c) :
      SysStep alloc freeFn S ⟨H', l1 ++ l2⟩

/-- Budget invariant of claim C1: every heap's used bytes equal the sum
of the charged bytes of the live blocks it backs, and never exceed its
total size. -/
def BudgetInv (S : SysState) : Prop :=
  ∀ j mh, S.H.heaps[j]? = some mh →
    mh.used = chargedSum S.H.types j S.live ∧ mh.used ≤ mh.size

/-! ### Characterization lemmas -/

/-- Membership in the suitable-types list, unfolded to the source's
three conditions: valid enumerated index, mask bit set, properties
containing the required flags, the score being the fitness. -/
theorem mem_suitableTypes {H : Heaps} {mask : Nat} {usage : MemoryUsage}
    {p : Nat × MemoryType × Nat} :
    p ∈ H.suitableTypes mask usage ↔
      H.types[p.1]? = some p.2.1 ∧ mask &&& (1 <<< p.1) ≠ 0 ∧
      p.2.1.properties &&& usage.properties_required = usage.properties_required ∧
      p.2.2 = usage.memory_fitness p.2.1.properties := by
  obtain ⟨i, mt, f⟩ := p
  simp only [Heaps.suitableTypes, List.mem_filterMap, List.mem_filter]
  constructor
  · rintro ⟨⟨j, mt'⟩, ⟨hmem, hmask⟩, hif⟩
    split at hif
    · rename_i hprops
      simp only [Option.some.injEq, Prod.mk.injEq] at hif
      obtain ⟨rfl, rfl, rfl⟩ := hif
      refine ⟨List.mk_mem_enum_iff_getElem?.mp hmem, ?_, hprops, rfl⟩
      simpa using hmask
    · exact absurd hif (by simp)
  · rintro ⟨hget, hmask, hprops, rfl⟩
    refine ⟨(i, mt), ⟨List.mk_mem_enum_iff_getElem?.mpr hget, by simpa using hmask⟩, ?_⟩
    simp [hprops]

/-- An element chosen by `maxByKey` belongs to the list. -/
theorem foldl_choice_mem {α : Type} (key : α → Nat) :
    ∀ (xs : List α) (a : α),
      xs.foldl (fun acc y => if key acc ≤ key y then y else acc) a ∈ a :: xs := by
  intro xs
  induction xs with
  | nil => intro a; simp
  | cons y ys ih =>
    intro a
    simp only [List.foldl_cons]
    rcases List.mem_cons.mp (ih (if key a ≤ key y then y else a)) with h | h
    · rw [h]
      by_cases hk : key a ≤ key y <;> simp [hk]
    · simp [h]

/-- `maxByKey` returns an element of the list. -/
theorem maxByKey_mem {α : Type} {key : α → Nat} {l : List α} {x : α}
    (h : maxByKey key l = some x) : x ∈ l := by
  cases l with
  | nil => exact absurd h (by simp [maxByKey])
  | cons a xs =>
    simp only [maxByKey, Option.some.injEq] at h
    exact h ▸ foldl_choice_mem key xs a

/-- Successful `allocate_from`, destructed: the class and tracker
lookups succeed, the second-phase budget re-check passes, the strategy
call succeeds with the block's flavor and the charged amount, the block
records the requested class index, and the sole state change is the
charge of the backing tracker. -/
theorem allocate_from_ok {alloc : AllocStrategy} {H H' : Heaps} {i : Nat}
    {usage : MemoryUsage} {size align : Nat} {b : MemoryBlock}
    (h : H.allocate_from alloc i usage size align = some (H', .ok b)) :
    ∃ mt mh allocated,
      H.types[i]? = some mt ∧
      H.heaps[mt.heap_index]? = some mh ∧
      size ≤ mh.available ∧
      alloc i usage size align = .ok (b.flavor, allocated) ∧
      b.memory_index = i ∧
      H' = ⟨H.types, H.heaps.set mt.heap_index (mh.allocated allocated)⟩ := by
  unfold Heaps.allocate_from at h
  split at h
  · exact absurd h (by simp)
  rename_i mt hmt
  split at h
  · exact absurd h (by simp)
  rename_i mh hmh
  split at h
  · simp at h
  rename_i hav
  split at h
  · simp at h
  rename_i flavor allocated halloc
  simp only [Option.some.injEq, Prod.mk.injEq] at h
  obtain ⟨rfl, hok⟩ := h
  have hb : b = ⟨flavor, i⟩ := by
    cases hok_eq : (Except.ok (ε := HeapsError) (⟨flavor, i⟩ : MemoryBlock)) with
    | ok v => injection hok with h2; exact h2.symm
    | error e => simp at hok_eq
  subst hb
  exact ⟨mt, mh, allocated, hmt, hmh, Nat.le_of_not_lt hav, halloc, rfl, rfl⟩

/-- Failing `allocate_from` leaves the registry untouched. -/
theorem allocate_from_err {alloc : AllocStrategy} {H H' : Heaps} {i : Nat}
    {usage : MemoryUsage} {size align : Nat} {e : HeapsError}
    (h : H.allocate_from alloc i usage size align = some (H', .error e)) :
    H' = H := by
  unfold Heaps.allocate_from at h
  split at h
  · exact absurd h (by simp)
  split at h
  · exact absurd h (by simp)
  split at h
  · simp only [Option.some.injEq, Prod.mk.injEq] at h
    exact h.1.symm
  split at h
  · simp only [Option.some.injEq, Prod.mk.injEq] at h
    exact h.1.symm
  · simp at h

/-- Successful `allocate`, destructed: at most 32 classes, the chosen
triple is the `max_by_key` of the capacity-filtered suitable list, its
index is the one recorded in the block, and the delegated
`allocate_from` call produced the result. -/
theorem allocate_ok {alloc : AllocStrategy} {H H' : Heaps} {mask : Nat}
    {usage : MemoryUsage} {size align : Nat} {b : MemoryBlock}
    (h : H.allocate alloc mask usage size align = some (H', .ok b)) :
    H.types.length ≤ 32 ∧
    ∃ mt f,
      maxByKey (fun p => p.2.2)
        ((H.suitableTypes mask usage).filter (H.capacityEligible size align)) =
        some (b.memory_index, mt, f) ∧
      H.allocate_from alloc b.memory_index usage size align = some (H', .ok b) := by
  unfold Heaps.allocate at h
  split at h
  · exact absurd h (by simp)
  rename_i hlen
  split at h
  · simp at h
  split at h
  case isFalse => exact absurd h (by simp)
  split at h
  · simp at h
  rename_i p hmax
  obtain ⟨i, mt, f⟩ := p
  obtain ⟨mt', mh, allocated, hmt, hmh, hsz, halloc, hbi, hH'⟩ := allocate_from_ok h
  subst hbi
  exact ⟨Nat.le_of_not_lt hlen, mt, f, hmax, h⟩

/-- Failing `allocate` leaves the registry untouched: every error path
(`NoSuitableMemory`, the exhausted capacity filter, the re-check and the
delegated strategy failure) returns before any tracker mutation. -/
theorem allocate_err {alloc : AllocStrategy} {H H' : Heaps} {mask : Nat}
    {usage : MemoryUsage} {size align : Nat} {e : HeapsError}
    (h : H.allocate alloc mask usage size align = some (H', .error e)) :
    H' = H := by
  unfold Heaps.allocate at h
  split at h
  · exact absurd h (by simp)
  split at h
  · simp only [Option.some.injEq, Prod.mk.injEq] at h
    exact h.1.symm
  split at h
  case isFalse => exact absurd h (by simp)
  split at h
  · simp only [Option.some.injEq, Prod.mk.injEq] at h
    exact h.1.symm
  · exact allocate_from_err h

/-- Setting a list entry to the value it already holds is the identity. -/
theorem set_getElem_eq_self {α : Type} {l : List α} {i : Nat} {a : α}
    (h : l[i]? = some a) : l.set i a = l := by
  apply List.ext_getElem?
  intro j
  by_cases hij : i = j
  · subst hij
    obtain ⟨hlt, -⟩ := List.getElem?_eq_some_iff.mp h
    rw [List.getElem?_set_self hlt]
    exact h.symm
  · exact List.getElem?_set_ne hij

/-! ### Claim theorems -/

/-- C4 (mask respect): for every successful `Heaps::allocate(device,
mask, usage, size, align)` call, the selected class index `i` recorded
in the returned block satisfies `mask & (1 << i) != 0`; `allocate`
never selects a class whose index bit is unset in the supplied mask. -/
theorem claim_C4_mask_respect {alloc : AllocStrategy} {H H' : Heaps} {mask : Nat}
    {usage : MemoryUsage} {size align : Nat} {b : MemoryBlock}
    (h : H.allocate alloc mask usage size align = some (H', .ok b)) :
    mask &&& (1 <<< b.memory_index) ≠ 0 := by
  obtain ⟨-, mt, f, hmax, -⟩ := allocate_ok h
  exact (mem_suitableTypes.mp (List.mem_filter.mp (maxByKey_mem hmax)).1).2.1

/-- Witness for C4: a concrete successful allocation on the one-class
fixture, whose mask bit 0 is indeed set. -/
theorem claim_C4_mask_respect_witness :
    (1 : Nat) &&& (1 <<< (MemoryBlock.mk ⟨64, 1⟩ 0).memory_index) ≠ 0 :=
  @claim_C4_mask_respect exAlloc exH ⟨[⟨0, 1⟩], [⟨1024, 64⟩]⟩ 1 exUsage 64 16
    ⟨⟨64, 1⟩, 0⟩ rfl

/-- C9 (teardown and leak diagnostic): `Heaps::clear` drains the class
collection, leaving it empty, after which dropping produces no
diagnostic; dropping a `Heaps` whose class collection is non-empty
produces the loud `log::error!` diagnostic. -/
theorem claim_C9_teardown_leak (H : Heaps) :
    H.clear.types = [] ∧
    H.clear.dropDiagnostic = false ∧
    (H.types ≠ [] → H.dropDiagnostic = true) := by
  refine ⟨rfl, rfl, fun hne => ?_⟩
  simp [Heaps.dropDiagnostic, hne]

/-- Witness for C9: the fixture registry has a class, so dropping it
undrained warns, while dropping it after `clear` does not. -/
theorem claim_C9_teardown_leak_witness :
    exH.clear.types = [] ∧
    exH.clear.dropDiagnostic = false ∧
    (exH.types ≠ [] → exH.dropDiagnostic = true) :=
  claim_C9_teardown_leak exH

/-- C10 (implicit 32-class limit): `Heaps::allocate` computes
`1u32 << index` for every class index on each of its non-panicking
paths, so with 33 or more classes the shift at index 32 overflows (a
debug-build panic, modelled as `none`): `allocate` is total only when
the registry holds at most 32 classes. -/
theorem claim_C10_class_limit {alloc : AllocStrategy} {H : Heaps} {mask : Nat}
    {usage : MemoryUsage} {size align : Nat} (hlen : 33 ≤ H.types.length) :
    H.allocate alloc mask usage size align = none := by
  unfold Heaps.allocate
  rw [if_pos (by omega)]

/-- Witness for C10: allocating on the 33-class fixture panics. -/
theorem claim_C10_class_limit_witness :
    Heaps.allocate exAlloc exH33 1 exUsage 64 16 = none :=
  @claim_C10_class_limit exAlloc exH33 1 exUsage 64 16 (by decide)

/-- C5 (properties superset): for every successful `Heaps::allocate`
call, the selected class's properties contain
`usage.properties_required()`; and — under the strategy contract that a
produced flavor carries the class's properties — the returned block's
`properties()` therefore includes every required flag. -/
theorem claim_C5_properties_superset {alloc : AllocStrategy} {H H' : Heaps}
    {mask : Nat} {usage : MemoryUsage} {size align : Nat} {b : MemoryBlock}
    (hflavor : ∀ f a, alloc b.memory_index usage size align = .ok (f, a) →
      f.properties = (H.types.getD b.memory_index ⟨0, 0⟩).properties)
    (h : H.allocate alloc mask usage size align = some (H', .ok b)) :
    (H.types.getD b.memory_index ⟨0, 0⟩).properties &&& usage.properties_required =
      usage.properties_required ∧
    b.properties &&& usage.properties_required = usage.properties_required := by
  obtain ⟨-, mt, f, hmax, hfrom⟩ := allocate_ok h
  obtain ⟨hget, -, hprops, -⟩ :=
    mem_suitableTypes.mp (List.mem_filter.mp (maxByKey_mem hmax)).1
  have hgetD : H.types.getD b.memory_index ⟨0, 0⟩ = mt := by
    rw [List.getD_eq_getElem?_getD, hget]
    rfl
  obtain ⟨mt', mh, allocated, hmt, hmh, -, halloc, -, -⟩ := allocate_from_ok hfrom
  refine ⟨by rw [hgetD]; exact hprops, ?_⟩
  rw [MemoryBlock.properties, hflavor b.flavor allocated halloc, hgetD]
  exact hprops

/-- Witness for C5: the concrete allocation on the one-class fixture
returns a block carrying the required property bit. -/
theorem claim_C5_properties_superset_witness :
    (exH.types.getD (MemoryBlock.mk ⟨64, 1⟩ 0).memory_index ⟨0, 0⟩).properties &&&
      exUsage.properties_required = exUsage.properties_required ∧
    (MemoryBlock.mk ⟨64, 1⟩ 0).properties &&& exUsage.properties_required =
      exUsage.properties_required :=
  @claim_C5_properties_superset exAlloc exH ⟨[⟨0, 1⟩], [⟨1024, 64⟩]⟩ 1 exUsage 64 16
    ⟨⟨64, 1⟩, 0⟩
    (fun f a hfa => by
      injection hfa with h
      have h1 : (⟨64, 1⟩ : BlockFlavor) = f := congrArg Prod.fst h
      rw [← h1]
      rfl)
    rfl

/-- C6 (allocation atomicity and exact charge): a `Heaps::allocate`
call that fails — on any path — leaves the registry untouched, and a
successful call performs exactly one tracker mutation: it charges the
chosen class's backing heap with the strategy-reported byte count and
returns a block wrapping the strategy's flavor and the chosen index. -/
theorem claim_C6_atomicity {alloc : AllocStrategy} {H H' : Heaps} {mask : Nat}
    {usage : MemoryUsage} {size align : Nat} {res : Except HeapsError MemoryBlock}
    (hres : H.allocate alloc mask usage size align = some (H', res)) :
    match res with
    | .error _ => H' = H
    | .ok b =>
        alloc b.memory_index usage size align =
          .ok (b.flavor, allocCharge alloc usage size align b.memory_index) ∧
        H' = ⟨H.types,
          H.heaps.set (heapIndexOf H b.memory_index)
            ((H.heaps.getD (heapIndexOf H b.memory_index) ⟨0, 0⟩).allocated
              (allocCharge alloc usage size align b.memory_index))⟩ := by
  cases res with
  | error e => exact allocate_err hres
  | ok b =>
    obtain ⟨-, mt, f, hmax, hfrom⟩ := allocate_ok hres
    obtain ⟨mt', mh, allocated, hmt, hmh, -, halloc, -, hH'⟩ := allocate_from_ok hfrom
    have hidx : heapIndexOf H b.memory_index = mt'.heap_index := by
      unfold heapIndexOf
      rw [List.getD_eq_getElem?_getD, hmt]
      rfl
    have hmhD : H.heaps.getD (heapIndexOf H b.memory_index) ⟨0, 0⟩ = mh := by
      rw [hidx, List.getD_eq_getElem?_getD, hmh]
      rfl
    have hcharge : allocCharge alloc usage size align b.memory_index = allocated := by
      unfold allocCharge
      rw [halloc]
    refine ⟨by rw [hcharge]; exact halloc, ?_⟩
    rw [hcharge, hmhD, hidx]
    exact hH'

/-- Witness for C6: on the one-class fixture the successful call's sole
state change is the 64-byte charge of heap 0. -/
theorem claim_C6_atomicity_witness :
    exAlloc 0 exUsage 64 16 = .ok (⟨64, 1⟩, allocCharge exAlloc exUsage 64 16 0) ∧
    (⟨[⟨0, 1⟩], [⟨1024, 64⟩]⟩ : Heaps) = ⟨exH.types,
      exH.heaps.set (heapIndexOf exH 0)
        ((exH.heaps.getD (heapIndexOf exH 0) ⟨0, 0⟩).allocated
          (allocCharge exAlloc exUsage 64 16 0))⟩ :=
  @claim_C6_atomicity exAlloc exH ⟨[⟨0, 1⟩], [⟨1024, 64⟩]⟩ 1 exUsage 64 16
    (.ok ⟨⟨64, 1⟩, 0⟩) rfl

/-- C7 (two-phase availability check): the first-phase capacity filter
of `allocate` admits a class exactly when its backing heap reports
`available() > size + align`, while the second-phase re-check in
`allocate_from` fails with the capacity error exactly when
`available() < size`, proceeding to the delegated strategy call exactly
when `available() >= size` — the two conditions as written in the
source, not inverses of each other. -/
theorem claim_C7_two_phase {alloc : AllocStrategy} {H : Heaps} {usage : MemoryUsage}
    {size align i f : Nat} {mt : MemoryType} {mh : MemoryHeap}
    (hmt : H.types[i]? = some mt) (hmh : H.heaps[mt.heap_index]? = some mh) :
    (H.capacityEligible size align (i, mt, f) = true ↔ size + align < mh.available) ∧
    (mh.available < size →
      H.allocate_from alloc i usage size align =
        some (H, .error (.AllocationError (.OutOfMemory .Device)))) ∧
    (size ≤ mh.available →
      H.allocate_from alloc i usage size align =
        match alloc i usage size align with
        | .error e => some (H, .error (.AllocationError e))
        | .ok (flavor, allocated) =>
          some (⟨H.types, H.heaps.set mt.heap_index (mh.allocated allocated)⟩,
            .ok ⟨flavor, i⟩)) := by
  refine ⟨?_, fun hlt => ?_, fun hge => ?_⟩
  · unfold Heaps.capacityEligible
    rw [List.getD_eq_getElem?_getD]
    simp [hmh]
  · simp only [Heaps.allocate_from, hmt, hmh]
    rw [if_pos hlt]
  · simp only [Heaps.allocate_from, hmt, hmh]
    rw [if_neg (Nat.not_lt.mpr hge)]

/-- Witness for C7: both phases evaluated on the one-class fixture at
`size = 64`, `align = 16`. -/
theorem claim_C7_two_phase_witness :
    (exH.capacityEligible 64 16 (0, ⟨0, 1⟩, 1) = true ↔
      64 + 16 < (MemoryHeap.mk 1024 0).available) ∧
    ((MemoryHeap.mk 1024 0).available < 64 →
      exH.allocate_from exAlloc 0 exUsage 64 16 =
        some (exH, .error (.AllocationError (.OutOfMemory .Device)))) ∧
    (64 ≤ (MemoryHeap.mk 1024 0).available →
      exH.allocate_from exAlloc 0 exUsage 64 16 =
        match exAlloc 0 exUsage 64 16 with
        | .error e => some (exH, .error (.AllocationError e))
        | .ok (flavor, allocated) =>
          some (⟨exH.types, exH.heaps.set (MemoryType.mk 0 1).heap_index
              ((MemoryHeap.mk 1024 0).allocated allocated)⟩,
            .ok ⟨flavor, 0⟩)) :=
  @claim_C7_two_phase exAlloc exH exUsage 64 16 0 1 ⟨0, 1⟩ ⟨1024, 0⟩ rfl rfl

/-- C2 (error-kind distinction): with at most 32 classes (so the mask
shift cannot panic), a `Heaps::allocate` call matching zero classes on
the mask/properties filter fails with
`NoSuitableMemory(mask, properties_required)`; a call matching at least
one class, all of whose matching classes fail the availability check,
fails with the capacity failure (`AllocationError` wrapping
`OutOfMemory::Device`), never with `NoSuitableMemory`. -/
theorem claim_C2_error_kinds {alloc : AllocStrategy} {H : Heaps} {mask : Nat}
    {usage : MemoryUsage} {size align : Nat} (hlen : H.types.length ≤ 32) :
    ((∀ i, i < H.types.length →
        mask &&& (1 <<< i) = 0 ∨
        (H.types.getD i ⟨0, 0⟩).properties &&& usage.properties_required ≠
          usage.properties_required) →
      H.allocate alloc mask usage size align =
        some (H, .error (.NoSuitableMemory mask usage.properties_required))) ∧
    (∀ i₀, i₀ < H.types.length →
      mask &&& (1 <<< i₀) ≠ 0 →
      (H.types.getD i₀ ⟨0, 0⟩).properties &&& usage.properties_required =
        usage.properties_required →
      (∀ i, i < H.types.length → (H.types.getD i ⟨0, 0⟩).heap_index < H.heaps.length) →
      (∀ i, i < H.types.length →
        mask &&& (1 <<< i) ≠ 0 →
        (H.types.getD i ⟨0, 0⟩).properties &&& usage.properties_required =
          usage.properties_required →
        (H.heaps.getD (H.types.getD i ⟨0, 0⟩).heap_index ⟨0, 0⟩).available ≤ size + align) →
      H.allocate alloc mask usage size align =
        some (H, .error (.AllocationError (.OutOfMemory .Device)))) := by
  constructor
  · intro hnone
    have hempty : H.suitableTypes mask usage = [] := by
      rw [List.eq_nil_iff_forall_not_mem]
      intro p hp
      obtain ⟨hget, hmask, hprops, -⟩ := mem_suitableTypes.mp hp
      obtain ⟨hlt, -⟩ := List.getElem?_eq_some_iff.mp hget
      have hgetD : H.types.getD p.1 ⟨0, 0⟩ = p.2.1 := by
        rw [List.getD_eq_getElem?_getD, hget]
        rfl
      rcases hnone p.1 hlt with hm | hpr
      · exact hmask hm
      · rw [hgetD] at hpr
        exact hpr hprops
    unfold Heaps.allocate
    rw [if_neg (Nat.not_lt.mpr hlen), hempty]
    rfl
  · intro i₀ hi₀ hm₀ hp₀ hvalid hfull
    have hget₀ : H.types[i₀]? = some (H.types.getD i₀ ⟨0, 0⟩) := by
      rw [List.getElem?_eq_getElem hi₀, List.getD_eq_getElem _ _ hi₀]
    have hmem₀ : (i₀, H.types.getD i₀ ⟨0, 0⟩,
        usage.memory_fitness (H.types.getD i₀ ⟨0, 0⟩).properties) ∈
        H.suitableTypes mask usage :=
      mem_suitableTypes.mpr ⟨hget₀, hm₀, hp₀, rfl⟩
    have hne : (H.suitableTypes mask usage).isEmpty = false :=
      List.isEmpty_eq_false.mpr (List.ne_nil_of_mem hmem₀)
    have hall : ((H.suitableTypes mask usage).all fun p =>
        decide (p.2.1.heap_index < H.heaps.length)) = true := by
      rw [List.all_eq_true]
      intro p hp
      obtain ⟨hget, -, -, -⟩ := mem_suitableTypes.mp hp
      obtain ⟨hlt, -⟩ := List.getElem?_eq_some_iff.mp hget
      have hgetD : H.types.getD p.1 ⟨0, 0⟩ = p.2.1 := by
        rw [List.getD_eq_getElem?_getD, hget]
        rfl
      exact decide_eq_true (hgetD ▸ hvalid p.1 hlt)
    have hfilter : (H.suitableTypes mask usage).filter (H.capacityEligible size align) = [] := by
      rw [List.filter_eq_nil_iff]
      intro p hp
      obtain ⟨hget, hmask, hprops, -⟩ := mem_suitableTypes.mp hp
      obtain ⟨hlt, -⟩ := List.getElem?_eq_some_iff.mp hget
      have hgetD : H.types.getD p.1 ⟨0, 0⟩ = p.2.1 := by
        rw [List.getD_eq_getElem?_getD, hget]
        rfl
      have havail := hfull p.1 hlt hmask (hgetD ▸ hprops)
      rw [hgetD] at havail
      unfold Heaps.capacityEligible
      simp only [decide_eq_true_eq, Nat.not_lt]
      exact havail
    unfold Heaps.allocate
    rw [if_neg (Nat.not_lt.mpr hlen), hne]
    simp only [Bool.false_eq_true, if_false, hall, if_true, hfilter]
    rfl

/-- Witness for C2: with mask 4 the one-class fixture matches nothing
and reports `NoSuitableMemory`; on the 100-byte-heap fixture a 200-byte
request matches class 0 but fails the availability check and reports
the capacity failure. -/
theorem claim_C2_error_kinds_witness :
    Heaps.allocate exAlloc exH 4 exUsage 64 16 =
      some (exH, .error (.NoSuitableMemory 4 exUsage.properties_required)) ∧
    Heaps.allocate exAlloc exHsmall 1 exUsage 200 16 =
      some (exHsmall, .error (.AllocationError (.OutOfMemory .Device))) :=
  ⟨(@claim_C2_error_kinds exAlloc exH 4 exUsage 64 16 (by decide)).1 (by decide),
   (@claim_C2_error_kinds exAlloc exHsmall 1 exUsage 200 16 (by decide)).2
     0 (by decide) (by decide) (by decide) (by decide) (by decide)⟩

/-- Indices listed by `enumFrom` are strictly increasing. -/
theorem pairwise_fst_lt_enumFrom {α : Type} :
    ∀ (l : List α) (n : Nat), (l.enumFrom n).Pairwise fun a b => a.1 < b.1 := by
  intro l
  induction l with
  | nil => intro n; simp
  | cons x xs ih =>
    intro n
    refine List.Pairwise.cons (fun p hp => ?_) (ih (n + 1))
    obtain ⟨q, r⟩ := p
    have := (List.mem_enumFrom hp).1
    omega

/-- Indices in the suitable-types list are strictly increasing, the
list being an order-preserving refinement of the enumeration. -/
theorem suitableTypes_pairwise (H : Heaps) (mask : Nat) (usage : MemoryUsage) :
    (H.suitableTypes mask usage).Pairwise fun p q => p.1 < q.1 := by
  unfold Heaps.suitableTypes
  refine List.Pairwise.filterMap _ (fun a b hab c hc d hd => ?_)
    (List.Pairwise.filter _ (pairwise_fst_lt_enumFrom H.types 0))
  have hc1 : c.1 = a.1 := by
    split at hc
    · cases hc; rfl
    · cases hc
  have hd1 : d.1 = b.1 := by
    split at hd
    · cases hd; rfl
    · cases hd
  rw [hc1, hd1]
  exact hab

/-- The Rust `max_by_key` fold keeps a maximum and, on key ties, the
element appearing later; over a list of strictly increasing indices the
result dominates every key and every tied element's index. -/
theorem foldl_max_last {α : Type} (key idx : α → Nat) :
    ∀ (l : List α) (a : α),
      (∀ y ∈ l, idx a < idx y) →
      (l.Pairwise fun p q => idx p < idx q) →
      (∀ y ∈ a :: l,
        key y ≤ key (l.foldl (fun acc z => if key acc ≤ key z then z else acc) a)) ∧
      (∀ y ∈ a :: l,
        key y = key (l.foldl (fun acc z => if key acc ≤ key z then z else acc) a) →
        idx y ≤ idx (l.foldl (fun acc z => if key acc ≤ key z then z else acc) a)) := by
  intro l
  induction l with
  | nil =>
    intro a _ _
    refine ⟨fun y hy => ?_, fun y hy _ => ?_⟩ <;>
      · rcases List.mem_singleton.mp hy with rfl
        exact Nat.le_refl _
  | cons x xs ih =>
    intro a hlt hpw
    obtain ⟨hhead, htail⟩ := List.pairwise_cons.mp hpw
    by_cases hk : key a ≤ key x
    · obtain ⟨ih1, ih2⟩ := ih x hhead htail
      simp only [List.foldl_cons, if_pos hk]
      have hxm : key x ≤ key (xs.foldl (fun acc z => if key acc ≤ key z then z else acc) x) :=
        ih1 x (List.mem_cons_self x xs)
      refine ⟨fun y hy => ?_, fun y hy hkey => ?_⟩
      · rcases List.mem_cons.mp hy with hya | hy'
        · have h1 : key y = key a := by rw [hya]
          omega
        · exact ih1 y hy'
      · rcases List.mem_cons.mp hy with hya | hy'
        · have h1 : key y = key a := by rw [hya]
          have h2 : idx y = idx a := by rw [hya]
          have hxtie : key x = key (xs.foldl (fun acc z => if key acc ≤ key z then z else acc) x) := by
            omega
          have h3 := ih2 x (List.mem_cons_self x xs) hxtie
          have h4 : idx a < idx x := hlt x (List.mem_cons_self x xs)
          omega
        · exact ih2 y hy' hkey
    · obtain ⟨ih1, ih2⟩ := ih a (fun y hy => hlt y (List.mem_cons_of_mem x hy)) htail
      simp only [List.foldl_cons, if_neg hk]
      have ham : key a ≤ key (xs.foldl (fun acc z => if key acc ≤ key z then z else acc) a) :=
        ih1 a (List.mem_cons_self a xs)
      refine ⟨fun y hy => ?_, fun y hy hkey => ?_⟩
      · rcases List.mem_cons.mp hy with hya | hy'
        · have h1 : key y = key a := by rw [hya]
          omega
        · rcases List.mem_cons.mp hy' with hyx | hy''
          · have h1 : key y = key x := by rw [hyx]
            have h2 : key x < key a := Nat.lt_of_not_le hk
            omega
          · exact ih1 y (List.mem_cons_of_mem a hy'')
      · rcases List.mem_cons.mp hy with hya | hy'
        · have h1 : idx y = idx a := by rw [hya]
          have h3 : key y = key a := by rw [hya]
          have h2 := ih2 a (List.mem_cons_self a xs) (by omega)
          omega
        · rcases List.mem_cons.mp hy' with hyx | hy''
          · have h1 : key y = key x := by rw [hyx]
            have h2 : key x < key a := Nat.lt_of_not_le hk
            omega
          · exact ih2 y (List.mem_cons_of_mem a hy'') hkey

/-- `maxByKey` on a list with strictly increasing indices returns an
element whose key dominates all keys and whose index dominates the
index of every key-tied element (the last maximal element). -/
theorem maxByKey_spec {α : Type} (key idx : α → Nat) {l : List α} {x : α}
    (hpw : l.Pairwise fun p q => idx p < idx q)
    (h : maxByKey key l = some x) :
    ∀ y ∈ l, key y ≤ key x ∧ (key y = key x → idx y ≤ idx x) := by
  cases l with
  | nil => simp [maxByKey] at h
  | cons a xs =>
    simp only [maxByKey, Option.some.injEq] at h
    subst h
    obtain ⟨hdom, htie⟩ :=
      foldl_max_last key idx xs a (List.pairwise_cons.mp hpw).1 (List.pairwise_cons.mp hpw).2
    exact fun y hy => ⟨hdom y hy, htie y hy⟩

/-- C3 (counterexample): two identical classes tie on the maximal
fitness and are both capacity-eligible, yet the successful call selects
index 1 — not the lower index 0 the claim requires. -/
theorem claim_C3_counterexample :
    Heaps.allocate exAlloc exH2 3 exUsageC 16 4 =
      some (⟨exH2.types, [⟨1024, 16⟩]⟩, .ok ⟨⟨16, 1⟩, 1⟩) ∧
    (0, (⟨0, 1⟩ : MemoryType), 5) ∈
      (exH2.suitableTypes 3 exUsageC).filter (exH2.capacityEligible 16 4) ∧
    (1, (⟨0, 1⟩ : MemoryType), 5) ∈
      (exH2.suitableTypes 3 exUsageC).filter (exH2.capacityEligible 16 4) :=
  ⟨rfl, by decide, by decide⟩

/-- C3 (amended): for every successful `Heaps::allocate` call the
selected class has the maximal fitness among the mask-eligible,
property-satisfying, capacity-eligible classes, and when several such
classes tie on the maximal score the one with the HIGHEST index is
chosen (Rust's `max_by_key` keeps the last maximal element). -/
theorem claim_C3_fitness_maximality {alloc : AllocStrategy} {H H' : Heaps}
    {mask : Nat} {usage : MemoryUsage} {size align : Nat} {b : MemoryBlock}
    (h : H.allocate alloc mask usage size align = some (H', .ok b)) :
    ∃ mt f,
      (b.memory_index, mt, f) ∈
        (H.suitableTypes mask usage).filter (H.capacityEligible size align) ∧
      ∀ p : Nat × MemoryType × Nat,
        p ∈ (H.suitableTypes mask usage).filter (H.capacityEligible size align) →
        p.2.2 ≤ f ∧ (p.2.2 = f → p.1 ≤ b.memory_index) := by
  obtain ⟨-, mt, f, hmax, -⟩ := allocate_ok h
  have hpw : ((H.suitableTypes mask usage).filter
      (H.capacityEligible size align)).Pairwise fun p q => p.1 < q.1 :=
    List.Pairwise.filter _ (suitableTypes_pairwise H mask usage)
  have hspec := maxByKey_spec (fun p : Nat × MemoryType × Nat => p.2.2)
    (fun p : Nat × MemoryType × Nat => p.1) hpw hmax
  exact ⟨mt, f, maxByKey_mem hmax, fun p hp => hspec p hp⟩

/-- Witness for C3: the tie-break fixture, where the amended statement
holds with the selected index 1. -/
theorem claim_C3_fitness_maximality_witness :
    ∃ mt f,
      ((MemoryBlock.mk ⟨16, 1⟩ 1).memory_index, mt, f) ∈
        (exH2.suitableTypes 3 exUsageC).filter (exH2.capacityEligible 16 4) ∧
      ∀ p : Nat × MemoryType × Nat,
        p ∈ (exH2.suitableTypes 3 exUsageC).filter (exH2.capacityEligible 16 4) →
        p.2.2 ≤ f ∧ (p.2.2 = f → p.1 ≤ (MemoryBlock.mk ⟨16, 1⟩ 1).memory_index) :=
  @claim_C3_fitness_maximality exAlloc exH2 ⟨exH2.types, [⟨1024, 16⟩]⟩ 3 exUsageC 16 4
    ⟨⟨16, 1⟩, 1⟩ rfl

/-- Successful `free`, destructed: both lookups succeed and the sole
state change reclaims the strategy-reported amount from the backing
tracker. -/
theorem free_ok {freeFn : FreeStrategy} {H H' : Heaps} {b : MemoryBlock}
    (h : H.free freeFn b = some H') :
    ∃ mt mh,
      H.types[b.memory_index]? = some mt ∧
      H.heaps[mt.heap_index]? = some mh ∧
      H' = ⟨H.types, H.heaps.set mt.heap_index
        (mh.freed (freeFn b.memory_index b.flavor))⟩ := by
  unfold Heaps.free at h
  split at h
  · exact absurd h (by simp)
  rename_i mt hmt
  split at h
  · exact absurd h (by simp)
  rename_i mh hmh
  injection h with h
  exact ⟨mt, mh, hmt, hmh, h.symm⟩

/-- C8 (free infallibility and exactness): `Heaps::free` returns no
error — on any block whose stored class index and backing heap resolve,
it looks the class up by the block's stored index, delegates to the
strategy and reduces the backing tracker's used bytes by exactly the
strategy-reported reclaimed count; moreover, freeing the block returned
by a successful allocation — with the strategy reclaiming exactly what
that allocation charged — restores the registry to its pre-allocation
state. -/
theorem claim_C8_free_exactness {alloc : AllocStrategy} {freeFn : FreeStrategy}
    {H H' K : Heaps} {mask : Nat} {usage : MemoryUsage} {size align : Nat}
    {b blk : MemoryBlock} {mt : MemoryType} {mh : MemoryHeap}
    (hmt : K.types[blk.memory_index]? = some mt)
    (hmh : K.heaps[mt.heap_index]? = some mh)
    (hok : H.allocate alloc mask usage size align = some (H', .ok b))
    (hcontract : freeFn b.memory_index b.flavor =
      allocCharge alloc usage size align b.memory_index) :
    K.free freeFn blk =
      some ⟨K.types, K.heaps.set mt.heap_index
        ⟨mh.size, mh.used - freeFn blk.memory_index blk.flavor⟩⟩ ∧
    H'.free freeFn b = some H := by
  constructor
  · simp only [Heaps.free, hmt, hmh]
    rfl
  · obtain ⟨-, mtc, f, hmax, hfrom⟩ := allocate_ok hok
    obtain ⟨mt', mh', allocated, hmt', hmh', -, halloc, -, hH'⟩ := allocate_from_ok hfrom
    have hcharge : allocCharge alloc usage size align b.memory_index = allocated := by
      unfold allocCharge
      rw [halloc]
    have hjlt : mt'.heap_index < H.heaps.length := (List.getElem?_eq_some_iff.mp hmh').1
    subst hH'
    simp only [Heaps.free, hmt', List.getElem?_set_self hjlt]
    rw [hcontract, hcharge]
    have hfra : (mh'.allocated allocated).freed allocated = mh' := by
      simp [MemoryHeap.allocated, MemoryHeap.freed]
    rw [hfra, List.set_set, set_getElem_eq_self hmh']

/-- Witness for C8: freeing the fixture block reclaims 64 bytes
exactly, and the allocate-then-free roundtrip restores the fixture
registry. -/
theorem claim_C8_free_exactness_witness :
    exH.free exFree ⟨⟨64, 1⟩, 0⟩ =
      some ⟨[⟨0, 1⟩], [⟨1024, 0 - exFree 0 ⟨64, 1⟩⟩]⟩ ∧
    Heaps.free exFree ⟨[⟨0, 1⟩], [⟨1024, 64⟩]⟩ ⟨⟨64, 1⟩, 0⟩ = some exH :=
  @claim_C8_free_exactness exAlloc exFree exH ⟨[⟨0, 1⟩], [⟨1024, 64⟩]⟩ exH 1 exUsage
    64 16 ⟨⟨64, 1⟩, 0⟩ ⟨⟨64, 1⟩, 0⟩ ⟨0, 1⟩ ⟨1024, 0⟩ rfl rfl rfl rfl

/-- `chargedSum` distributes over list append. -/
theorem chargedSum_append (types : List MemoryType) (j : Nat)
    (l1 l2 : List (MemoryBlock × Nat)) :
    chargedSum types j (l1 ++ l2) = chargedSum types j l1 + chargedSum types j l2 := by
  induction l1 with
  | nil => simp [chargedSum]
  | cons p rest ih =>
    simp [chargedSum, ih, Nat.add_assoc]

/-- A single successful allocate or free call preserves the budget
invariant. -/
theorem budget_step {alloc : AllocStrategy} {freeFn : FreeStrategy} {S S' : SysState}
    (hstep : SysStep alloc freeFn S S') (hinv : BudgetInv S) : BudgetInv S' := by
  cases hstep with
  | allocStep mask usage size align H' b hok hbudget =>
    obtain ⟨-, mtc, f, hmax, hfrom⟩ := allocate_ok hok
    obtain ⟨mt, mh, allocated, hmt, hmh, -, halloc, -, hH'⟩ := allocate_from_ok hfrom
    have hcharge : allocCharge alloc usage size align b.memory_index = allocated := by
      unfold allocCharge
      rw [halloc]
    have hgetD : S.H.types.getD b.memory_index ⟨0, 0⟩ = mt := by
      rw [List.getD_eq_getElem?_getD, hmt]
      rfl
    have hmhD : S.H.heaps.getD (heapIndexOf S.H b.memory_index) ⟨0, 0⟩ = mh := by
      unfold heapIndexOf
      rw [hgetD, List.getD_eq_getElem?_getD, hmh]
      rfl
    have hjlt : mt.heap_index < S.H.heaps.length := (List.getElem?_eq_some_iff.mp hmh).1
    have hav : mh.available = mh.size - mh.used := rfl
    rw [hmhD, hcharge] at hbudget
    subst hH'
    rw [hcharge]
    intro j mh2 hj
    dsimp only at hj ⊢
    by_cases hje : j = mt.heap_index
    · subst hje
      rw [List.getElem?_set_self hjlt] at hj
      injection hj with hj
      subst hj
      obtain ⟨hused, hle⟩ := hinv _ _ hmh
      constructor
      · simp [chargedSum, hmt, MemoryHeap.allocated]
        omega
      · simp only [MemoryHeap.allocated]
        omega
    · rw [List.getElem?_set_ne (fun he => hje he.symm)] at hj
      obtain ⟨hused, hle⟩ := hinv _ _ hj
      refine ⟨?_, hle⟩
      simp only [chargedSum, hgetD]
      rw [if_neg (fun he => hje he.symm)]
      omega
  | freeStep b c l1 l2 H' hlive hfree hcontract =>
    obtain ⟨mt, mh, hmt, hmh, hH'⟩ := free_ok hfree
    rw [hcontract] at hH'
    have hgetD : S.H.types.getD b.memory_index ⟨0, 0⟩ = mt := by
      rw [List.getD_eq_getElem?_getD, hmt]
      rfl
    have hjlt : mt.heap_index < S.H.heaps.length := (List.getElem?_eq_some_iff.mp hmh).1
    subst hH'
    intro j mh2 hj
    dsimp only at hj ⊢
    have hsum_old : chargedSum S.H.types j S.live =
        chargedSum S.H.types j l1 +
          ((if mt.heap_index = j then c else 0) + chargedSum S.H.types j l2) := by
      rw [hlive, chargedSum_append]
      simp only [chargedSum, hgetD]
    have hsum_new : chargedSum S.H.types j (l1 ++ l2) =
        chargedSum S.H.types j l1 + chargedSum S.H.types j l2 :=
      chargedSum_append S.H.types j l1 l2
    by_cases hje : j = mt.heap_index
    · subst hje
      rw [List.getElem?_set_self hjlt] at hj
      injection hj with hj
      subst hj
      obtain ⟨hused, hle⟩ := hinv _ _ hmh
      rw [if_pos rfl] at hsum_old
      constructor
      · simp only [MemoryHeap.freed]
        omega
      · simp only [MemoryHeap.freed]
        omega
    · rw [List.getElem?_set_ne (fun he => hje he.symm)] at hj
      obtain ⟨hused, hle⟩ := hinv _ _ hj
      rw [if_neg (fun he => hje he.symm)] at hsum_old
      refine ⟨?_, hle⟩
      rw [hsum_new]
      omega

/-- C1 (budget conservation): along every trace of allocate and free
calls that all succeed, started from a registry with all-zero used
bytes and no live blocks, every heap tracker's `used_size` equals the
sum of the charged bytes of the currently-live blocks backed by that
heap and never exceeds `total_size`: allocate charges the
strategy-reported allocated amount, free reclaims the strategy-reported
freed amount, and the two cancel exactly for each block. -/
theorem claim_C1_budget_conservation {alloc : AllocStrategy} {freeFn : FreeStrategy}
    {S0 S : SysState}
    (hlive0 : S0.live = [])
    (hused0 : ∀ mh ∈ S0.H.heaps, mh.used = 0)
    (hreach : Relation.ReflTransGen (SysStep alloc freeFn) S0 S) :
    BudgetInv S := by
  have h0 : BudgetInv S0 := by
    intro j mh hj
    have hz := hused0 mh (List.getElem?_mem hj)
    rw [hlive0, hz]
    exact ⟨rfl, Nat.zero_le _⟩
  induction hreach with
  | refl => exact h0
  | tail hsteps hstep ih => exact budget_step hstep ih

/-- Witness for C1: a two-step trace on the one-class fixture — a
64-byte allocation followed by the matching free — ends in a state
satisfying the budget invariant. -/
theorem claim_C1_budget_conservation_witness : BudgetInv ⟨exH, []⟩ :=
  @claim_C1_budget_conservation exAlloc exFree ⟨exH, []⟩ ⟨exH, []⟩ rfl
    (by decide)
    (Relation.ReflTransGen.tail
      (Relation.ReflTransGen.tail Relation.ReflTransGen.refl
        (SysStep.allocStep ⟨exH, []⟩ 1 exUsage 64 16 ⟨[⟨0, 1⟩], [⟨1024, 64⟩]⟩
          ⟨⟨64, 1⟩, 0⟩ rfl (by decide)))
      (SysStep.freeStep ⟨⟨[⟨0, 1⟩], [⟨1024, 64⟩]⟩, [(⟨⟨64, 1⟩, 0⟩, 64)]⟩
        ⟨⟨64, 1⟩, 0⟩ 64 [] [] exH rfl rfl rfl))

end GfxMemory
